import Mathlib

/-!
Verification of the go-pkg-installer workflow/task execution engine.

The repository ships the tests and configuration types of its `pkg/core`
engine, and full sources of the built-in download task
(`pkg/builtin/task_download.go`).  The engine implementation itself
(TaskRunner, Workflow, InstallContext) is not present in the tree, so those
components are modelled from the specification; the download task is
embedded from its Go source.
-/

namespace Installer

/-- Task states, from the core `TaskState` enum
(pending/running/completed/failed/cancelled/rolled_back). -/
inductive TaskState where
  | pending
  | running
  | completed
  | failed
  | cancelled
  | rolledBack
deriving DecidableEq, Repr

/-- Failure policies of the task runner (`FailureAbort`, `FailureSkip`,
`FailureRollback`, `FailureRetry`). -/
inductive FailurePolicy where
  | abort
  | skip
  | rollback
  | retry
deriving DecidableEq, Repr

/-- Modelled from the spec: abstract behaviour of one task as the runner
observes it (the `Task` contract `Validate/Execute/CanRollback/Rollback`).
`valErr` is the result of `Validate()`; `failsAt k` tells whether the
`k`-th `Execute` attempt (0-based) fails, in which case the error message
is `errMsg`; `canRb` is the `CanRollback()` capability flag. -/
structure MTask where
  tid : String
  valErr : Option String := none
  failsAt : Nat → Bool
  errMsg : String := "task failed"
  canRb : Bool := false

/-- Modelled from the spec: repeated `Execute` attempts.  `tryExec t n k`
makes up to `n` attempts starting at attempt number `k`, stopping at the
first success; it returns the number of attempts actually made and whether
one of them succeeded. -/
def tryExec (t : MTask) : Nat → Nat → Nat × Bool
  | 0, _ => (0, false)
  | n + 1, k =>
    if t.failsAt k then
      let r := tryExec t n (k + 1)
      (r.1 + 1, r.2)
    else
      (1, true)

/-- Events published by the task runner on the event bus
(`EventTaskStart`, `EventTaskComplete`, `EventTaskError`, plus a rollback
invocation marker). -/
inductive RunEvent where
  | start (tid : String)
  | complete (tid : String)
  | error (tid : String)
  | rolledBack (tid : String)
deriving DecidableEq, Repr

/-- Outcome of `TaskRunner.Run()`: per-task final states and `Execute`
attempt counts (aligned with the task list), the indices rolled back in
rollback order, the event trace, and the returned error. -/
structure RunResult where
  states : List TaskState
  attempts : List Nat
  rbOrder : List Nat
  events : List RunEvent
  err : Option String
deriving DecidableEq, Repr

/-- Modelled from the spec: validation followed by (possibly retried)
execution of one task — the number of `Execute` calls made and whether the
task completed.  A validation failure makes no `Execute` call; otherwise
the Retry policy allows `maxR` additional attempts, every other policy
exactly one. -/
def taskOutcome (pol : FailurePolicy) (maxR : Nat) (t : MTask) : Nat × Bool :=
  match t.valErr with
  | some _ => (0, false)
  | none => tryExec t (if pol = FailurePolicy.retry then maxR + 1 else 1) 0

/-- The error a failed task reports: its validation error, or the
execution error message. -/
def taskFailMsg (t : MTask) : String :=
  match t.valErr with
  | some e => e
  | none => t.errMsg

/-- Modelled from the spec: the sequential processing loop of
`TaskRunner.Run()` (§4.5).  `idx` is the index of the first task of `ts` in
the full list and `compl` the stack of previously completed tasks (most
recent first, with their indices).  A validation failure is handled exactly
like an execution failure; on a final failure the policy decides: Skip
records `failed` and continues, Rollback rolls back every completed
rollback-capable task in reverse order and marks it `rolled_back`, Abort
(and exhausted Retry) stops and returns the error.  Tasks never reached
stay `pending`. -/
def runGo (pol : FailurePolicy) (maxR : Nat) : Nat → List (Nat × MTask) → List MTask → RunResult
  | _, _, [] => ⟨[], [], [], [], none⟩
  | idx, compl, t :: rest =>
    if (taskOutcome pol maxR t).2 = true then
      let r := runGo pol maxR (idx + 1) ((idx, t) :: compl) rest
      ⟨(if idx ∈ r.rbOrder then TaskState.rolledBack else TaskState.completed) :: r.states,
        (taskOutcome pol maxR t).1 :: r.attempts, r.rbOrder,
        RunEvent.start t.tid :: RunEvent.complete t.tid :: r.events, r.err⟩
    else
      match pol with
      | FailurePolicy.skip =>
        let r := runGo pol maxR (idx + 1) compl rest
        ⟨TaskState.failed :: r.states, (taskOutcome pol maxR t).1 :: r.attempts, r.rbOrder,
          RunEvent.start t.tid :: RunEvent.error t.tid :: r.events, r.err⟩
      | FailurePolicy.rollback =>
        let rbs := compl.filter fun p => p.2.canRb
        ⟨TaskState.failed :: rest.map fun _ => TaskState.pending,
          (taskOutcome pol maxR t).1 :: rest.map fun _ => 0,
          rbs.map Prod.fst,
          RunEvent.start t.tid :: RunEvent.error t.tid ::
            rbs.map fun p => RunEvent.rolledBack p.2.tid,
          some (taskFailMsg t)⟩
      | _ =>
        ⟨TaskState.failed :: rest.map fun _ => TaskState.pending,
          (taskOutcome pol maxR t).1 :: rest.map fun _ => 0,
          [],
          [RunEvent.start t.tid, RunEvent.error t.tid],
          some (taskFailMsg t)⟩

/-- Modelled from the spec: `TaskRunner.Run()` on a queued task list. -/
def runTasks (pol : FailurePolicy) (maxR : Nat) (ts : List MTask) : RunResult :=
  runGo pol maxR 0 [] ts

/-- A task whose `Validate` passes and whose first `Execute` attempt
succeeds. -/
def execOk (t : MTask) : Bool :=
  t.valErr = none && !t.failsAt 0

/-- Index/task pairs of a task list, indices starting at `idx` (execution
order). -/
def enumF (idx : Nat) : List MTask → List (Nat × MTask)
  | [] => []
  | t :: rest => (idx, t) :: enumF (idx + 1) rest

/-- The completed-task stack built by `runGo` after a run of successful
tasks. -/
def stackOf (idx : Nat) : List MTask → List (Nat × MTask) → List (Nat × MTask)
  | [], compl => compl
  | t :: rest, compl => stackOf (idx + 1) rest ((idx, t) :: compl)

/-- Event trace of a run of tasks that all complete. -/
def okEvents : List MTask → List RunEvent
  | [] => []
  | t :: rest => RunEvent.start t.tid :: RunEvent.complete t.tid :: okEvents rest

/-- Event trace of a task list under the Skip policy. -/
def skipEvents : List MTask → List RunEvent
  | [] => []
  | t :: rest =>
    RunEvent.start t.tid ::
      (if execOk t then RunEvent.complete t.tid else RunEvent.error t.tid) :: skipEvents rest

/-- A concrete mock task that always succeeds (no rollback support), like
the test `MockTask` defaults. -/
def wOk (i : String) : MTask :=
  { tid := i, failsAt := fun _ => false }

/-- A concrete mock task that always succeeds and supports rollback. -/
def wOkRb (i : String) : MTask :=
  { tid := i, failsAt := fun _ => false, canRb := true }

/-- A concrete mock task that fails on every attempt. -/
def wFail (i : String) : MTask :=
  { tid := i, failsAt := fun _ => true, errMsg := "boom" }

/-- A concrete mock task that fails its first `k` attempts, then
succeeds. -/
def wFlaky (i : String) (k : Nat) : MTask :=
  { tid := i, failsAt := fun a => decide (a < k), errMsg := "flaky" }

/-! Association-list helpers shared by the context, the workflow and the
file-system model. -/

/-- Lookup in an association list (first binding wins). -/
def alookup {α : Type} : List (String × α) → String → Option α
  | [], _ => none
  | (k, v) :: rest, key => if k = key then some v else alookup rest key

/-- Remove every binding of a key. -/
def aremove {α : Type} (l : List (String × α)) (key : String) : List (String × α) :=
  l.filter fun p => p.1 != key

/-- Overwrite the binding of a key. -/
def ainsert {α : Type} (l : List (String × α)) (key : String) (v : α) : List (String × α) :=
  (key, v) :: aremove l key

/-! The `InstallContext` template rendering, modelled from the spec (§4.1):
`Render` replaces every occurrence of a dollar-brace variable reference
with the stringified value found at its path, and leaves an unresolvable
reference verbatim. -/

/-- Modelled from the spec: scan up to the first closing brace; returns the
characters before it and the rest, or `none` when the reference is never
closed. -/
def spanToClose : List Char → Option (List Char × List Char)
  | [] => none
  | c :: cs =>
    if c = '\x7d' then some ([], cs)
    else
      match spanToClose cs with
      | some (p, rem) => some (c :: p, rem)
      | none => none

/-- Modelled from the spec: the substitution scan of `Render`, fuelled by
the input length.  A resolvable reference is replaced by its value; an
unresolvable or unterminated one is kept verbatim. -/
def renderList (res : String → Option String) : Nat → List Char → List Char
  | 0, cs => cs
  | _ + 1, [] => []
  | fuel + 1, c :: cs =>
    if c = '$' then
      match cs with
      | [] => [c]
      | d :: cs' =>
        if d = '\x7b' then
          match spanToClose cs' with
          | some (p, rem) =>
            match res (String.mk p) with
            | some v => v.data ++ renderList res fuel rem
            | none => c :: d :: (p ++ '\x7d' :: renderList res fuel rem)
          | none => c :: d :: renderList res fuel cs'
        else c :: renderList res fuel cs
    else c :: renderList res fuel cs

/-- Modelled from the spec: `InstallContext.Render` over an abstract path
resolver. -/
def render (res : String → Option String) (s : String) : String :=
  String.mk (renderList res (s.data.length + 1) s.data)

/-- Modelled from the spec: the three value namespaces of `InstallContext`
consulted by `Render` (user input, meta, environment fields), with
stringified values. -/
structure RenderCtx where
  userInput : List (String × String) := []
  meta : List (String × String) := []
  env : List (String × String) := []
deriving DecidableEq, Repr

/-- Modelled from the spec: path resolution order of `Render` — user
input, then meta, then environment fields under both the bare name and the
name with the leading environment qualifier stripped. -/
def ctxResolve (c : RenderCtx) (p : String) : Option String :=
  match alookup c.userInput p with
  | some v => some v
  | none =>
    match alookup c.meta p with
    | some v => some v
    | none =>
      match alookup c.env p with
      | some v => some v
      | none => if "env.".isPrefixOf p then alookup c.env (p.drop 4) else none

/-- Modelled from the spec: `InstallContext.Render`. -/
def ctxRender (c : RenderCtx) (s : String) : String :=
  render (ctxResolve c) s

/-! The Workflow/Flow/Step engine, modelled from the spec (§4.6). -/

/-- Modelled from the spec: a constructed guard as the engine observes it —
its registered type is irrelevant here; `passes` is the outcome of
`Check(ctx)` and `message` the human-readable error it surfaces. -/
structure MGuard where
  gid : String
  message : String
  passes : Bool
deriving DecidableEq, Repr

/-- `BranchConfig` from `pkg/core` configuration types: a context path to
evaluate, a mapping from stringified values to step IDs, and a fallback. -/
structure BranchConfig where
  condition : String
  branches : List (String × String)
  default : String := ""
deriving DecidableEq, Repr

/-- A workflow step (`Step`): identity, optional explicit next/prev
overrides, optional branch rule, jump flag and guard list. -/
structure Step where
  id : String
  title : String := ""
  next : String := ""
  prev : String := ""
  branch : Option BranchConfig := none
  allowJump : Bool := false
  guards : List MGuard := []
deriving DecidableEq, Repr

/-- A flow (`Flow`): unique ID, entry step ID, ordered steps. -/
structure Flow where
  id : String
  entry : String := ""
  steps : List Step := []
deriving DecidableEq, Repr

/-- Step-change events published by the workflow
(`EventStepChange{FromStep,ToStep}`). -/
inductive WfEvent where
  | stepChange (fromStep toStep : String)
deriving DecidableEq, Repr

/-- Modelled from the spec: the workflow state — registered flows, current
(flow, step) position, visited/disabled/completed step sets, the
stringified context values branch conditions read, and the published
step-change events. -/
structure Workflow where
  flows : List Flow := []
  cur : Option (String × String) := none
  visited : List String := []
  disabled : List String := []
  completedSteps : List String := []
  ctx : List (String × String) := []
  events : List WfEvent := []
deriving DecidableEq, Repr

/-- Find a registered flow by ID. -/
def findFlow (w : Workflow) (fid : String) : Option Flow :=
  w.flows.find? fun f => f.id == fid

/-- Find a step of a flow by ID. -/
def findStep (f : Flow) (sid : String) : Option Step :=
  f.steps.find? fun s => s.id == sid

/-- Modelled from the spec: `AddFlow` registration-time validation — a
flow with an empty ID, a duplicate ID, zero steps, or an entry that names
no step is rejected with an error. -/
def addFlow (w : Workflow) (f : Flow) : Except String Workflow :=
  if f.id = "" then Except.error "flow id is empty"
  else if (findFlow w f.id).isSome then Except.error "duplicate flow id"
  else if f.steps = [] then Except.error "flow has no steps"
  else if (findStep f f.entry).isNone then Except.error "entry step not found"
  else Except.ok { w with flows := w.flows ++ [f] }

/-- Modelled from the spec: `SelectFlow` — resolves the flow, makes its
entry step current and visited. -/
def selectFlow (w : Workflow) (fid : String) : Except String Workflow :=
  match findFlow w fid with
  | none => Except.error "flow not found"
  | some f =>
    Except.ok { w with cur := some (fid, f.entry), visited := [f.entry], completedSteps := [] }

/-- Modelled from the spec: ordered guard evaluation with short-circuit on
the first failure.  Returns the IDs of the guards actually evaluated and
the first failing guard's message, if any. -/
def evalGuards : List MGuard → List String × Option String
  | [] => ([], none)
  | g :: gs =>
    if g.passes then
      let r := evalGuards gs
      (g.gid :: r.1, r.2)
    else ([g.gid], some g.message)

/-- Modelled from the spec: `CanGoNext()` — evaluates the current step's
guards in order and surfaces the first failing guard's message. -/
def canGoNext (w : Workflow) : Option String :=
  match w.cur with
  | none => some "no flow selected"
  | some (fid, sid) =>
    match findFlow w fid with
    | none => some "flow not found"
    | some f =>
      match findStep f sid with
      | none => some "current step not found"
      | some st => (evalGuards st.guards).2

/-- Modelled from the spec: branch-rule resolution — the stringified
context value at the condition path selects a branch; an unmatched value
falls back to the default; no match and no default is an error. -/
def branchTarget (ctx : List (String × String)) (b : BranchConfig) : Except String String :=
  let v := (alookup ctx b.condition).getD ""
  match alookup b.branches v with
  | some tgt => Except.ok tgt
  | none =>
    if b.default ≠ "" then Except.ok b.default
    else Except.error "no branch matched and no default set"

/-- First step of a list that is not disabled. -/
def firstEnabled : List Step → List String → Option String
  | [], _ => none
  | s :: rest, dis => if s.id ∈ dis then firstEnabled rest dis else some s.id

/-- Modelled from the spec: the next step in declaration order after a
given step, skipping disabled steps. -/
def declNext : List Step → String → List String → Option String
  | [], _, _ => none
  | s :: rest, sid, dis =>
    if s.id = sid then firstEnabled rest dis else declNext rest sid dis

/-- Modelled from the spec: target-step resolution of `Next()` in priority
order — explicit next override, then branch rule, then declaration order
(skipping disabled steps; past the last step is an error). -/
def resolveTarget (f : Flow) (st : Step) (ctx : List (String × String))
    (dis : List String) : Except String String :=
  if st.next ≠ "" then Except.ok st.next
  else
    match st.branch with
    | some b => branchTarget ctx b
    | none =>
      match declNext f.steps st.id dis with
      | some nid => Except.ok nid
      | none => Except.error "already at last step"

/-- Modelled from the spec: `Next()` — requires `CanGoNext` to pass, then
transitions to the resolved target, marking the old step completed, the
new step current and visited, and publishing a step-change event. -/
def nextStep (w : Workflow) : Except String (String × Workflow) :=
  match w.cur with
  | none => Except.error "no flow selected"
  | some (fid, sid) =>
    match findFlow w fid with
    | none => Except.error "flow not found"
    | some f =>
      match findStep f sid with
      | none => Except.error "current step not found"
      | some st =>
        match (evalGuards st.guards).2 with
        | some e => Except.error e
        | none =>
          match resolveTarget f st w.ctx w.disabled with
          | Except.error e => Except.error e
          | Except.ok nid =>
            Except.ok (nid,
              { w with
                cur := some (fid, nid),
                visited := w.visited ++ [nid],
                completedSteps := w.completedSteps ++ [sid],
                events := w.events ++ [WfEvent.stepChange sid nid] })

/-- Modelled from the spec: `JumpTo(stepID)` — allowed only to a
non-disabled step that was previously visited or carries the jump flag; a
successful jump checks no guard and publishes a step-change event. -/
def jumpTo (w : Workflow) (sid : String) : Except String Workflow :=
  match w.cur with
  | none => Except.error "no flow selected"
  | some (fid, cur) =>
    match findFlow w fid with
    | none => Except.error "flow not found"
    | some f =>
      match findStep f sid with
      | none => Except.error "step not found"
      | some st =>
        if sid ∈ w.disabled then Except.error "cannot jump to disabled step"
        else if sid ∈ w.visited ∨ st.allowJump = true then
          Except.ok
            { w with
              cur := some (fid, sid),
              visited := w.visited ++ [sid],
              events := w.events ++ [WfEvent.stepChange cur sid] }
        else Except.error "cannot jump to unvisited step"

/-- A two-step flow whose first step carries one failing guard (the guard
test scenario). -/
def guardFlow : Flow :=
  { id := "test",
    entry := "s1",
    steps := [{ id := "s1", guards := [⟨"gx", "must accept", false⟩] },
              { id := "s2" }] }

/-- A workflow positioned on `guardFlow`'s entry step. -/
def guardWf : Workflow :=
  { flows := [guardFlow], cur := some ("test", "s1"), visited := ["s1"] }

/-- The branching flow of the engine branch test: `install.type` selects
`full_install`/`minimal_install` with default `full_install`. -/
def branchFlow : Flow :=
  { id := "test",
    entry := "start",
    steps := [{ id := "start",
                branch := some { condition := "install.type",
                                 branches := [("full", "full_install"),
                                              ("minimal", "minimal_install")],
                                 default := "full_install" } },
              { id := "full_install" },
              { id := "minimal_install" },
              { id := "finish" }] }

/-- A workflow on `branchFlow`'s entry with context `install.type`
set to `minimal`. -/
def branchWf : Workflow :=
  { flows := [branchFlow],
    cur := some ("test", "start"),
    visited := ["start"],
    ctx := [("install.type", "minimal")] }

/-- The five-step install flow of the jump test; its `install` step allows
jumping. -/
def jumpFlow : Flow :=
  { id := "install",
    entry := "welcome",
    steps := [{ id := "welcome" }, { id := "license" }, { id := "destination" },
              { id := "install", allowJump := true }, { id := "finish" }] }

/-- A workflow on `jumpFlow`'s entry step, only the entry visited. -/
def jumpWf : Workflow :=
  { flows := [jumpFlow], cur := some ("install", "welcome"), visited := ["welcome"] }

/-! The built-in download task, embedded from
`src/pkg/builtin/task_download.go`.  The file system is an association
list from paths to byte lists; the network is an association list from
URLs to responses; the SHA-256 hex digest is an abstract parameter (its
control-flow role, not its arithmetic, is what `Execute` uses). -/

/-- An HTTP response as `Execute` consumes it. -/
structure HttpResp where
  status : Nat
  body : List Nat
deriving DecidableEq, Repr

/-- `DownloadTask` fields relevant to execution and rollback;
`downloadedFile` is set only by a successful `Execute`. -/
structure DownloadTask where
  url : String
  destination : String
  sha256 : String := ""
  downloadedFile : String := ""
deriving DecidableEq, Repr

/-- `DownloadTask.Validate`: URL and destination are required. -/
def validateD (t : DownloadTask) : Option String :=
  if t.url = "" then some "download: url is required"
  else if t.destination = "" then some "download: destination is required"
  else none

/-- Outcome of a `DownloadTask` operation: error, updated task, updated
file system. -/
structure DlResult where
  err : Option String
  task : DownloadTask
  fs : List (String × List Nat)
deriving DecidableEq, Repr

/-- `DownloadTask.Execute`: fetch the URL; on a non-OK status fail; write
the body to the destination; when a checksum is configured and the digest
of the received bytes differs, remove the destination and fail; otherwise
record the downloaded file for rollback. -/
def executeD (hashHex : List Nat → String) (net : List (String × HttpResp))
    (t : DownloadTask) (fs : List (String × List Nat)) : DlResult :=
  match alookup net t.url with
  | none => ⟨some "failed to download", t, fs⟩
  | some resp =>
    if resp.status ≠ 200 then ⟨some ("download failed with status: " ++ toString resp.status), t, fs⟩
    else
      let fs1 := ainsert fs t.destination resp.body
      if t.sha256 ≠ "" ∧ hashHex resp.body ≠ t.sha256 then
        ⟨some ("checksum mismatch: expected " ++ t.sha256 ++ ", got " ++ hashHex resp.body),
          t, aremove fs1 t.destination⟩
      else ⟨none, { t with downloadedFile := t.destination }, fs1⟩

/-- `DownloadTask.CanRollback`: true once a download succeeded. -/
def canRollbackD (t : DownloadTask) : Bool :=
  t.downloadedFile != ""

/-- `DownloadTask.Rollback`: remove the downloaded file; a missing file is
tolerated. -/
def rollbackD (t : DownloadTask) (fs : List (String × List Nat)) :
    Option String × List (String × List Nat) :=
  if t.downloadedFile ≠ "" then (none, aremove fs t.downloadedFile)
  else (none, fs)

/-! Helper lemmas about the task runner. -/

theorem tryExec_ok (t : MTask) (n k : Nat) (h : t.failsAt k = false) :
    tryExec t (n + 1) k = (1, true) := by
  simp [tryExec, h]

theorem tryExec_all_fail (t : MTask) (h : ∀ k, t.failsAt k = true) :
    ∀ n k, tryExec t n k = (n, false) := by
  intro n
  induction n with
  | zero => intro k; rfl
  | succ m ih => intro k; simp [tryExec, h k, ih]

theorem tryExec_first_success (t : MTask) :
    ∀ j n k, (∀ i, i < j → t.failsAt (k + i) = true) → t.failsAt (k + j) = false →
      j < n → tryExec t n k = (j + 1, true) := by
  intro j
  induction j with
  | zero =>
    intro n k _ hs hn
    obtain ⟨m, rfl⟩ : ∃ m, n = m + 1 := ⟨n - 1, by omega⟩
    have hk : t.failsAt k = false := by simpa using hs
    simp [tryExec, hk]
  | succ j ih =>
    intro n k hf hs hn
    obtain ⟨m, rfl⟩ : ∃ m, n = m + 1 := ⟨n - 1, by omega⟩
    have h0 : t.failsAt k = true := by simpa using hf 0 (by omega)
    have hf' : ∀ i, i < j → t.failsAt (k + 1 + i) = true := by
      intro i hi
      have := hf (i + 1) (by omega)
      have e : k + (i + 1) = k + 1 + i := by omega
      rwa [e] at this
    have hs' : t.failsAt (k + 1 + j) = false := by
      have e : k + (j + 1) = k + 1 + j := by omega
      rwa [e] at hs
    have hrec := ih m (k + 1) hf' hs' (by omega)
    simp [tryExec, h0, hrec]

theorem execOk_spec (t : MTask) (h : execOk t = true) :
    t.valErr = none ∧ t.failsAt 0 = false := by
  simp only [execOk, Bool.and_eq_true, decide_eq_true_eq, Bool.not_eq_true'] at h
  exact h

theorem runGo_nil (pol : FailurePolicy) (maxR idx : Nat) (compl : List (Nat × MTask)) :
    runGo pol maxR idx compl [] = ⟨[], [], [], [], none⟩ := rfl

theorem runGo_cons (pol : FailurePolicy) (maxR idx : Nat) (compl : List (Nat × MTask))
    (t : MTask) (rest : List MTask) :
    runGo pol maxR idx compl (t :: rest) =
      (if (taskOutcome pol maxR t).2 = true then
        let r := runGo pol maxR (idx + 1) ((idx, t) :: compl) rest
        ⟨(if idx ∈ r.rbOrder then TaskState.rolledBack else TaskState.completed) :: r.states,
          (taskOutcome pol maxR t).1 :: r.attempts, r.rbOrder,
          RunEvent.start t.tid :: RunEvent.complete t.tid :: r.events, r.err⟩
      else
        match pol with
        | FailurePolicy.skip =>
          let r := runGo pol maxR (idx + 1) compl rest
          ⟨TaskState.failed :: r.states, (taskOutcome pol maxR t).1 :: r.attempts, r.rbOrder,
            RunEvent.start t.tid :: RunEvent.error t.tid :: r.events, r.err⟩
        | FailurePolicy.rollback =>
          let rbs := compl.filter fun p => p.2.canRb
          ⟨TaskState.failed :: rest.map fun _ => TaskState.pending,
            (taskOutcome pol maxR t).1 :: rest.map fun _ => 0,
            rbs.map Prod.fst,
            RunEvent.start t.tid :: RunEvent.error t.tid ::
              rbs.map fun p => RunEvent.rolledBack p.2.tid,
            some (taskFailMsg t)⟩
        | _ =>
          ⟨TaskState.failed :: rest.map fun _ => TaskState.pending,
            (taskOutcome pol maxR t).1 :: rest.map fun _ => 0,
            [],
            [RunEvent.start t.tid, RunEvent.error t.tid],
            some (taskFailMsg t)⟩) := rfl

theorem runGo_cons_ok (pol : FailurePolicy) (maxR idx : Nat) (compl : List (Nat × MTask))
    (t : MTask) (rest : List MTask) (h : execOk t = true) :
    runGo pol maxR idx compl (t :: rest) =
      ⟨(if idx ∈ (runGo pol maxR (idx + 1) ((idx, t) :: compl) rest).rbOrder then
          TaskState.rolledBack else TaskState.completed)
         :: (runGo pol maxR (idx + 1) ((idx, t) :: compl) rest).states,
       1 :: (runGo pol maxR (idx + 1) ((idx, t) :: compl) rest).attempts,
       (runGo pol maxR (idx + 1) ((idx, t) :: compl) rest).rbOrder,
       RunEvent.start t.tid :: RunEvent.complete t.tid ::
         (runGo pol maxR (idx + 1) ((idx, t) :: compl) rest).events,
       (runGo pol maxR (idx + 1) ((idx, t) :: compl) rest).err⟩ := by
  obtain ⟨h1, h2⟩ := execOk_spec t h
  have ha : (if pol = FailurePolicy.retry then maxR + 1 else 1)
      = (if pol = FailurePolicy.retry then maxR else 0) + 1 := by
    split <;> rfl
  have hout : taskOutcome pol maxR t = (1, true) := by
    simp only [taskOutcome, h1, ha]
    exact tryExec_ok t _ 0 h2
  rw [runGo_cons]
  simp [hout]

theorem runGo_ok_prefix (pol : FailurePolicy) (maxR : Nat) :
    ∀ pre : List MTask, ∀ idx compl rest, (∀ u ∈ pre, execOk u = true) →
      runGo pol maxR idx compl (pre ++ rest) =
        ⟨(enumF idx pre).map
            (fun p =>
              if p.1 ∈ (runGo pol maxR (idx + pre.length) (stackOf idx pre compl) rest).rbOrder
              then TaskState.rolledBack else TaskState.completed)
           ++ (runGo pol maxR (idx + pre.length) (stackOf idx pre compl) rest).states,
         pre.map (fun _ => 1)
           ++ (runGo pol maxR (idx + pre.length) (stackOf idx pre compl) rest).attempts,
         (runGo pol maxR (idx + pre.length) (stackOf idx pre compl) rest).rbOrder,
         okEvents pre ++ (runGo pol maxR (idx + pre.length) (stackOf idx pre compl) rest).events,
         (runGo pol maxR (idx + pre.length) (stackOf idx pre compl) rest).err⟩ := by
  intro pre
  induction pre with
  | nil =>
    intro idx compl rest _
    simp [enumF, okEvents, stackOf]
  | cons t pre ih =>
    intro idx compl rest h
    have ht : execOk t = true := h t (by simp)
    have hrest : ∀ u ∈ pre, execOk u = true := fun u hu => h u (by simp [hu])
    have hlen : idx + 1 + pre.length = idx + (t :: pre).length := by
      simp [List.length_cons]; omega
    have hstack : stackOf (idx + 1) pre ((idx, t) :: compl) = stackOf idx (t :: pre) compl := rfl
    rw [List.cons_append, runGo_cons_ok pol maxR idx compl t (pre ++ rest) ht,
      ih (idx + 1) ((idx, t) :: compl) rest hrest, hlen, hstack]
    simp [enumF, okEvents]

theorem stackOf_eq : ∀ (pre : List MTask) (idx : Nat) (compl : List (Nat × MTask)),
    stackOf idx pre compl = (enumF idx pre).reverse ++ compl := by
  intro pre
  induction pre with
  | nil => intro idx compl; simp [stackOf, enumF]
  | cons t pre ih =>
    intro idx compl
    simp [stackOf, enumF, ih (idx + 1) ((idx, t) :: compl)]

theorem enumF_map_snd : ∀ (l : List MTask) (idx : Nat), (enumF idx l).map Prod.snd = l := by
  intro l
  induction l with
  | nil => intro idx; rfl
  | cons t rest ih => intro idx; simp [enumF, ih]

theorem enumF_mem_ge : ∀ (l : List MTask) (idx : Nat) (p : Nat × MTask),
    p ∈ enumF idx l → idx ≤ p.1 := by
  intro l
  induction l with
  | nil => intro idx p hp; simp [enumF] at hp
  | cons t rest ih =>
    intro idx p hp
    simp only [enumF, List.mem_cons] at hp
    rcases hp with rfl | hp
    · simp
    · have := ih (idx + 1) p hp; omega

theorem enumF_mem_lt : ∀ (l : List MTask) (idx : Nat) (p : Nat × MTask),
    p ∈ enumF idx l → p.1 < idx + l.length := by
  intro l
  induction l with
  | nil => intro idx p hp; simp [enumF] at hp
  | cons t rest ih =>
    intro idx p hp
    simp only [enumF, List.mem_cons] at hp
    rcases hp with rfl | hp
    · simp
    · have := ih (idx + 1) p hp
      simp only [List.length_cons]
      omega

theorem enumF_fst_inj : ∀ (l : List MTask) (idx : Nat) (p q : Nat × MTask),
    p ∈ enumF idx l → q ∈ enumF idx l → p.1 = q.1 → p = q := by
  intro l
  induction l with
  | nil => intro idx p q hp _ _; simp [enumF] at hp
  | cons t rest ih =>
    intro idx p q hp hq he
    simp only [enumF, List.mem_cons] at hp hq
    rcases hp with rfl | hp <;> rcases hq with rfl | hq
    · rfl
    · exact absurd he (by have := enumF_mem_ge rest (idx + 1) q hq; simp; omega)
    · exact absurd he (by have := enumF_mem_ge rest (idx + 1) p hp; simp; omega)
    · exact ih (idx + 1) p q hp hq he

theorem enumF_mark : ∀ (pre : List MTask) (idx : Nat) (rb : List Nat),
    (∀ p ∈ enumF idx pre, (p.1 ∈ rb ↔ p.2.canRb = true)) →
    (enumF idx pre).map
        (fun p => if p.1 ∈ rb then TaskState.rolledBack else TaskState.completed)
      = pre.map fun u => if u.canRb then TaskState.rolledBack else TaskState.completed := by
  intro pre
  induction pre with
  | nil => intro idx rb _; rfl
  | cons t pre ih =>
    intro idx rb h
    have hhead : idx ∈ rb ↔ t.canRb = true := h (idx, t) (by simp [enumF])
    simp only [enumF, List.map_cons, List.map_cons]
    rw [ih (idx + 1) rb (fun p hp => h p (by simp [enumF, hp]))]
    congr 1
    by_cases hc : t.canRb = true
    · simp [hc, hhead.2 hc]
    · have hnot : idx ∉ rb := fun hm => hc (hhead.1 hm)
      simp [hc, hnot]

theorem mem_rbList_iff (pre : List MTask) (p : Nat × MTask) (hp : p ∈ enumF 0 pre) :
    p.1 ∈ ((enumF 0 pre).reverse.filter fun q => q.2.canRb).map Prod.fst
      ↔ p.2.canRb = true := by
  constructor
  · intro hm
    obtain ⟨q, hq, he⟩ := List.mem_map.1 hm
    have hq2 := List.mem_filter.1 hq
    have hqe : q ∈ enumF 0 pre := List.mem_reverse.1 hq2.1
    have heq : q = p := enumF_fst_inj pre 0 q p hqe hp he
    rw [← heq]
    exact hq2.2
  · intro hc
    exact List.mem_map.2 ⟨p, List.mem_filter.2 ⟨List.mem_reverse.2 hp, hc⟩, rfl⟩

/-- C1: under the Rollback failure policy, when a task fails the runner
records it `failed`, invokes `Rollback()` on exactly the previously
completed rollback-capable tasks in strict reverse order of execution,
marks each of them `rolled_back`, and `Run()` returns the original error;
the failed task itself is never rolled back. -/
theorem rollback_policy_semantics (pre post : List MTask) (t : MTask) (maxR : Nat)
    (hpre : ∀ u ∈ pre, execOk u = true)
    (hval : t.valErr = none) (hfail : t.failsAt 0 = true) :
    runTasks FailurePolicy.rollback maxR (pre ++ t :: post) =
      ⟨pre.map (fun u => if u.canRb then TaskState.rolledBack else TaskState.completed)
         ++ TaskState.failed :: post.map (fun _ => TaskState.pending),
       pre.map (fun _ => 1) ++ 1 :: post.map (fun _ => 0),
       (((enumF 0 pre).filter fun p => p.2.canRb).map Prod.fst).reverse,
       okEvents pre ++ RunEvent.start t.tid :: RunEvent.error t.tid ::
         (((enumF 0 pre).filter fun p => p.2.canRb).map
           fun p => RunEvent.rolledBack p.2.tid).reverse,
       some t.errMsg⟩
    ∧ pre.length ∉ (runTasks FailurePolicy.rollback maxR (pre ++ t :: post)).rbOrder := by
  have hout : taskOutcome FailurePolicy.rollback maxR t = (1, false) := by
    simp only [taskOutcome, hval]
    simp [tryExec, hfail]
  have hmsg : taskFailMsg t = t.errMsg := by
    simp only [taskFailMsg, hval]
  have hmain :
      runTasks FailurePolicy.rollback maxR (pre ++ t :: post) =
        ⟨(enumF 0 pre).map
            (fun p =>
              if p.1 ∈ ((enumF 0 pre).reverse.filter fun q => q.2.canRb).map Prod.fst
              then TaskState.rolledBack else TaskState.completed)
           ++ TaskState.failed :: post.map (fun _ => TaskState.pending),
         pre.map (fun _ => 1) ++ 1 :: post.map (fun _ => 0),
         ((enumF 0 pre).reverse.filter fun q => q.2.canRb).map Prod.fst,
         okEvents pre ++ RunEvent.start t.tid :: RunEvent.error t.tid ::
           ((enumF 0 pre).reverse.filter fun q => q.2.canRb).map
             (fun p => RunEvent.rolledBack p.2.tid),
         some t.errMsg⟩ := by
    have hinner :
        runGo FailurePolicy.rollback maxR pre.length ((enumF 0 pre).reverse) (t :: post) =
          ⟨TaskState.failed :: post.map (fun _ => TaskState.pending),
           1 :: post.map (fun _ => 0),
           ((enumF 0 pre).reverse.filter fun q => q.2.canRb).map Prod.fst,
           RunEvent.start t.tid :: RunEvent.error t.tid ::
             ((enumF 0 pre).reverse.filter fun q => q.2.canRb).map
               (fun p => RunEvent.rolledBack p.2.tid),
           some t.errMsg⟩ := by
      rw [runGo_cons, hout]
      simp [hmsg]
    rw [runTasks, runGo_ok_prefix FailurePolicy.rollback maxR pre 0 [] (t :: post) hpre,
      stackOf_eq, List.append_nil]
    simp only [Nat.zero_add]
    rw [hinner]
  refine ⟨?_, ?_⟩
  · rw [hmain]
    have hstates := enumF_mark pre 0
      (((enumF 0 pre).reverse.filter fun q => q.2.canRb).map Prod.fst)
      (fun p hp => mem_rbList_iff pre p hp)
    rw [hstates]
    have hrev : ((enumF 0 pre).reverse.filter fun q => q.2.canRb)
        = ((enumF 0 pre).filter fun q => q.2.canRb).reverse := by
      rw [List.filter_reverse]
    rw [hrev, List.map_reverse, List.map_reverse]
  · rw [hmain]
    intro hm
    obtain ⟨q, hq, he⟩ := List.mem_map.1 hm
    have hq2 := List.mem_filter.1 hq
    have hqe : q ∈ enumF 0 pre := List.mem_reverse.1 hq2.1
    have := enumF_mem_lt pre 0 q hqe
    omega

/-- Witness for C1: the three-task scenario of the rollback test — two
completed rollback-capable tasks are rolled back in reverse order; the
failed third task is not. -/
theorem rollback_policy_semantics_witness :
    (∀ u ∈ [wOkRb "task-1", wOkRb "task-2"], execOk u = true)
    ∧ (wFail "task-3").valErr = none ∧ (wFail "task-3").failsAt 0 = true
    ∧ runTasks FailurePolicy.rollback 0 [wOkRb "task-1", wOkRb "task-2", wFail "task-3"] =
        ⟨[TaskState.rolledBack, TaskState.rolledBack, TaskState.failed],
         [1, 1, 1], [1, 0],
         [RunEvent.start "task-1", RunEvent.complete "task-1", RunEvent.start "task-2",
          RunEvent.complete "task-2", RunEvent.start "task-3", RunEvent.error "task-3",
          RunEvent.rolledBack "task-2", RunEvent.rolledBack "task-1"],
         some "boom"⟩
    ∧ 2 ∉ (runTasks FailurePolicy.rollback 0
        [wOkRb "task-1", wOkRb "task-2", wFail "task-3"]).rbOrder := by
  have hpre : ∀ u ∈ [wOkRb "task-1", wOkRb "task-2"], execOk u = true := by
    intro u hu
    rcases List.mem_cons.1 hu with rfl | hu
    · rfl
    · rcases List.mem_cons.1 hu with rfl | hu
      · rfl
      · cases hu
  have h := rollback_policy_semantics [wOkRb "task-1", wOkRb "task-2"] [] (wFail "task-3") 0
    hpre rfl rfl
  exact ⟨hpre, rfl, rfl, h.1.trans (by rfl), h.2⟩

theorem enumF_length : ∀ (l : List MTask) (idx : Nat), (enumF idx l).length = l.length := by
  intro l
  induction l with
  | nil => intro idx; rfl
  | cons t rest ih => intro idx; simp [enumF, ih]

theorem enumF_map_const {β : Type} (c : β) :
    ∀ (l : List MTask) (idx : Nat), (enumF idx l).map (fun _ => c) = l.map fun _ => c := by
  intro l
  induction l with
  | nil => intro idx; rfl
  | cons t rest ih => intro idx; simp [enumF, ih]

theorem runGo_retry_rbOrder (maxR : Nat) :
    ∀ (ts : List MTask) (idx : Nat) (compl : List (Nat × MTask)),
      (runGo FailurePolicy.retry maxR idx compl ts).rbOrder = [] := by
  intro ts
  induction ts with
  | nil => intro idx compl; rfl
  | cons t rest ih =>
    intro idx compl
    rw [runGo_cons]
    by_cases h : (taskOutcome FailurePolicy.retry maxR t).2 = true
    · simp [h, ih]
    · simp [h]

/-- C2: under the Retry policy with `MaxRetries = n`, a task failing on
every attempt is attempted exactly `n + 1` times, ends `failed`, and the
run stops like Abort, returning the error; a task that succeeds on attempt
`j ≤ n` is attempted `j + 1` times, is marked `completed`, and the run
continues with the remaining tasks. -/
theorem retry_policy_semantics :
    (∀ (pre post : List MTask) (t : MTask) (n : Nat),
      (∀ u ∈ pre, execOk u = true) → t.valErr = none → (∀ k, t.failsAt k = true) →
      runTasks FailurePolicy.retry n (pre ++ t :: post) =
        ⟨pre.map (fun _ => TaskState.completed)
           ++ TaskState.failed :: post.map (fun _ => TaskState.pending),
         pre.map (fun _ => 1) ++ (n + 1) :: post.map (fun _ => 0),
         [],
         okEvents pre ++ [RunEvent.start t.tid, RunEvent.error t.tid],
         some t.errMsg⟩)
    ∧ (∀ (pre post : List MTask) (t : MTask) (n j : Nat),
      (∀ u ∈ pre, execOk u = true) → t.valErr = none →
      (∀ i, i < j → t.failsAt i = true) → t.failsAt j = false → j ≤ n →
      runTasks FailurePolicy.retry n (pre ++ t :: post) =
        ⟨pre.map (fun _ => TaskState.completed) ++ TaskState.completed ::
           (runGo FailurePolicy.retry n (pre.length + 1)
             ((pre.length, t) :: (enumF 0 pre).reverse) post).states,
         pre.map (fun _ => 1) ++ (j + 1) ::
           (runGo FailurePolicy.retry n (pre.length + 1)
             ((pre.length, t) :: (enumF 0 pre).reverse) post).attempts,
         [],
         okEvents pre ++ RunEvent.start t.tid :: RunEvent.complete t.tid ::
           (runGo FailurePolicy.retry n (pre.length + 1)
             ((pre.length, t) :: (enumF 0 pre).reverse) post).events,
         (runGo FailurePolicy.retry n (pre.length + 1)
           ((pre.length, t) :: (enumF 0 pre).reverse) post).err⟩) := by
  constructor
  · intro pre post t n hpre hval hfail
    have hout : taskOutcome FailurePolicy.retry n t = (n + 1, false) := by
      simp only [taskOutcome, hval]
      simp [tryExec_all_fail t hfail]
    have hmsg : taskFailMsg t = t.errMsg := by
      simp only [taskFailMsg, hval]
    rw [runTasks, runGo_ok_prefix FailurePolicy.retry n pre 0 [] (t :: post) hpre,
      stackOf_eq, List.append_nil]
    simp only [Nat.zero_add]
    rw [runGo_cons, hout]
    simp [hmsg, enumF_map_const, enumF_length]
  · intro pre post t n j hpre hval hfails hsucc hjn
    have hout : taskOutcome FailurePolicy.retry n t = (j + 1, true) := by
      simp only [taskOutcome, hval]
      exact tryExec_first_success t j (n + 1) 0 (fun i hi => by simpa using hfails i hi)
        (by simpa using hsucc) (by omega)
    rw [runTasks, runGo_ok_prefix FailurePolicy.retry n pre 0 [] (t :: post) hpre,
      stackOf_eq, List.append_nil]
    simp only [Nat.zero_add]
    rw [runGo_cons, hout]
    simp [runGo_retry_rbOrder, enumF_map_const, enumF_length]

/-- Witness for C2: with `MaxRetries = 3`, an always-failing task makes
exactly 4 attempts and ends `failed` with the error returned; a task that
succeeds on its third attempt makes exactly 3 attempts and completes. -/
theorem retry_policy_semantics_witness :
    (∀ k, (wFail "r").failsAt k = true)
    ∧ runTasks FailurePolicy.retry 3 [wFail "r"] =
        ⟨[TaskState.failed], [4], [], [RunEvent.start "r", RunEvent.error "r"], some "boom"⟩
    ∧ (∀ i, i < 2 → (wFlaky "f" 2).failsAt i = true) ∧ (wFlaky "f" 2).failsAt 2 = false
    ∧ runTasks FailurePolicy.retry 3 [wFlaky "f" 2] =
        ⟨[TaskState.completed], [3], [], [RunEvent.start "f", RunEvent.complete "f"], none⟩ := by
  have hA := retry_policy_semantics.1 [] [] (wFail "r") 3 (by intro u hu; cases hu) rfl
    (fun k => rfl)
  have hflaky : ∀ i, i < 2 → (wFlaky "f" 2).failsAt i = true := by
    intro i hi
    simp only [wFlaky]
    exact decide_eq_true hi
  have hB := retry_policy_semantics.2 [] [] (wFlaky "f" 2) 3 2 (by intro u hu; cases hu) rfl
    hflaky (by rfl) (by omega)
  exact ⟨fun k => rfl, hA.trans (by rfl), hflaky, rfl, hB.trans (by rfl)⟩

/-- C3: under the Skip policy every failing task is recorded `failed` with
a task-error event published, every task of the list is still processed in
order, and `Run()` returns no error. -/
theorem skip_policy_semantics (maxR : Nat) (ts : List MTask) :
    runTasks FailurePolicy.skip maxR ts =
      ⟨ts.map (fun u => if execOk u then TaskState.completed else TaskState.failed),
       ts.map (fun u => if u.valErr = none then 1 else 0),
       [],
       skipEvents ts,
       none⟩ := by
  suffices h : ∀ (ts : List MTask) (idx : Nat) (compl : List (Nat × MTask)),
      runGo FailurePolicy.skip maxR idx compl ts =
        ⟨ts.map (fun u => if execOk u then TaskState.completed else TaskState.failed),
         ts.map (fun u => if u.valErr = none then 1 else 0),
         [],
         skipEvents ts,
         none⟩ by
    exact h ts 0 []
  intro ts
  induction ts with
  | nil => intro idx compl; rfl
  | cons t rest ih =>
    intro idx compl
    rw [runGo_cons]
    by_cases h : execOk t = true
    · obtain ⟨h1, h2⟩ := execOk_spec t h
      have hout : taskOutcome FailurePolicy.skip maxR t = (1, true) := by
        simp only [taskOutcome, h1]
        simpa using tryExec_ok t 0 0 h2
      simp [hout, ih, skipEvents, h, h1]
    · cases hv : t.valErr with
      | some e =>
        have hout : taskOutcome FailurePolicy.skip maxR t = (0, false) := by
          simp only [taskOutcome, hv]
        simp [hout, ih, skipEvents, h, hv]
      | none =>
        have hf : t.failsAt 0 = true := by
          by_contra hc
          exact h (by simp [execOk, hv, Bool.not_eq_true] at hc ⊢; simp [hc])
        have hout : taskOutcome FailurePolicy.skip maxR t = (1, false) := by
          simp only [taskOutcome, hv]
          simp [tryExec, hf]
        simp [hout, ih, skipEvents, h, hv]

/-- C4: `CanGoNext()` evaluates guards in configured order, stops at the
first failing guard and surfaces that guard's message verbatim (later
guards are never evaluated); if every guard passes it returns nil; and
`Next()` fails with the same error whenever `CanGoNext()` fails. -/
theorem guard_evaluation_semantics :
    (∀ (pre post : List MGuard) (g : MGuard),
      (∀ p ∈ pre, p.passes = true) → g.passes = false →
      evalGuards (pre ++ g :: post) = (pre.map MGuard.gid ++ [g.gid], some g.message))
    ∧ (∀ gs : List MGuard, (∀ p ∈ gs, p.passes = true) →
      evalGuards gs = (gs.map MGuard.gid, none))
    ∧ (∀ (w : Workflow) (e : String), canGoNext w = some e → nextStep w = Except.error e) := by
  refine ⟨?_, ?_, ?_⟩
  · intro pre
    induction pre with
    | nil =>
      intro post g _ hg
      simp [evalGuards, hg]
    | cons p pre ih =>
      intro post g hpre hg
      have hp : p.passes = true := hpre p (by simp)
      simp [evalGuards, hp, ih post g (fun q hq => hpre q (by simp [hq])) hg]
  · intro gs
    induction gs with
    | nil => intro _; rfl
    | cons p gs ih =>
      intro h
      have hp := h p (by simp)
      simp [evalGuards, hp, ih (fun q hq => h q (by simp [hq]))]
  · intro w e h
    simp only [canGoNext] at h
    simp only [nextStep]
    cases hc : w.cur with
    | none =>
      simp only [hc, Option.some.injEq] at h
      simp [hc, h]
    | some pr =>
      obtain ⟨fid, sid⟩ := pr
      simp only [hc] at h ⊢
      cases hf : findFlow w fid with
      | none =>
        simp only [hf, Option.some.injEq] at h
        simp [hf, h]
      | some f =>
        simp only [hf] at h ⊢
        cases hs : findStep f sid with
        | none =>
          simp only [hs, Option.some.injEq] at h
          simp [hs, h]
        | some st =>
          simp only [hs] at h ⊢
          simp [h]

/-- Witness for C4: a failing first guard blocks with its message verbatim
and the second guard is never evaluated; an all-passing list returns nil;
`Next()` fails on a workflow whose current step has a failing guard. -/
theorem guard_evaluation_semantics_witness :
    (∀ p ∈ [(⟨"g1", "m1", true⟩ : MGuard)], p.passes = true)
    ∧ evalGuards [⟨"g1", "m1", true⟩, ⟨"g2", "must accept", false⟩, ⟨"g3", "m3", true⟩] =
        (["g1", "g2"], some "must accept")
    ∧ evalGuards [⟨"g1", "m1", true⟩, ⟨"g3", "m3", true⟩] = (["g1", "g3"], none)
    ∧ canGoNext guardWf = some "must accept"
    ∧ nextStep guardWf = Except.error "must accept" := by
  have h1 : ∀ p ∈ [(⟨"g1", "m1", true⟩ : MGuard)], p.passes = true := by
    intro p hp
    rcases List.mem_cons.1 hp with rfl | hp
    · rfl
    · cases hp
  refine ⟨h1, ?_, ?_, rfl, ?_⟩
  · exact guard_evaluation_semantics.1 [⟨"g1", "m1", true⟩] [⟨"g3", "m3", true⟩]
      ⟨"g2", "must accept", false⟩ h1 rfl
  · have h2 : ∀ p ∈ [(⟨"g1", "m1", true⟩ : MGuard), ⟨"g3", "m3", true⟩], p.passes = true := by
      intro p hp
      rcases List.mem_cons.1 hp with rfl | hp
      · rfl
      · rcases List.mem_cons.1 hp with rfl | hp
        · rfl
        · cases hp
    exact guard_evaluation_semantics.2.1 [⟨"g1", "m1", true⟩, ⟨"g3", "m3", true⟩] h2
  · exact guard_evaluation_semantics.2.2 guardWf "must accept" rfl

/-- C5: `Next()` resolves its target with priority (1) the explicit next
override, (2) the branch rule — the stringified context value at the
condition path selects the mapped step, an unmatched value falls back to
the default, and it is an error when neither matches nor a default is set —
and (3) the next step in declaration order, skipping disabled steps; a
passing-guard `Next()` transitions to the resolved target and publishes a
step-change event. -/
theorem next_resolution_semantics :
    (∀ (f : Flow) (st : Step) (ctx : List (String × String)) (dis : List String),
      st.next ≠ "" → resolveTarget f st ctx dis = Except.ok st.next)
    ∧ (∀ (f : Flow) (st : Step) (ctx : List (String × String)) (dis : List String)
        (b : BranchConfig) (v tgt : String),
      st.next = "" → st.branch = some b → alookup ctx b.condition = some v →
      alookup b.branches v = some tgt →
      resolveTarget f st ctx dis = Except.ok tgt)
    ∧ (∀ (f : Flow) (st : Step) (ctx : List (String × String)) (dis : List String)
        (b : BranchConfig),
      st.next = "" → st.branch = some b →
      alookup b.branches ((alookup ctx b.condition).getD "") = none → b.default ≠ "" →
      resolveTarget f st ctx dis = Except.ok b.default)
    ∧ (∀ (f : Flow) (st : Step) (ctx : List (String × String)) (dis : List String)
        (b : BranchConfig),
      st.next = "" → st.branch = some b →
      alookup b.branches ((alookup ctx b.condition).getD "") = none → b.default = "" →
      resolveTarget f st ctx dis = Except.error "no branch matched and no default set")
    ∧ (∀ (f : Flow) (st : Step) (ctx : List (String × String)) (dis : List String),
      st.next = "" → st.branch = none →
      resolveTarget f st ctx dis =
        (match declNext f.steps st.id dis with
         | some nid => Except.ok nid
         | none => Except.error "already at last step"))
    ∧ (∀ (s : Step) (rest : List Step) (dis : List String),
      (s.id ∈ dis → firstEnabled (s :: rest) dis = firstEnabled rest dis)
      ∧ (s.id ∉ dis → firstEnabled (s :: rest) dis = some s.id))
    ∧ (∀ (w : Workflow) (fid sid : String) (f : Flow) (st : Step) (nid : String),
      w.cur = some (fid, sid) → findFlow w fid = some f → findStep f sid = some st →
      (evalGuards st.guards).2 = none → resolveTarget f st w.ctx w.disabled = Except.ok nid →
      nextStep w = Except.ok (nid,
        { w with
          cur := some (fid, nid),
          visited := w.visited ++ [nid],
          completedSteps := w.completedSteps ++ [sid],
          events := w.events ++ [WfEvent.stepChange sid nid] })) := by
  refine ⟨?_, ?_, ?_, ?_, ?_, ?_, ?_⟩
  · intro f st ctx dis h
    simp [resolveTarget, h]
  · intro f st ctx dis b v tgt hn hb hv htgt
    simp [resolveTarget, hn, hb, branchTarget, hv, htgt]
  · intro f st ctx dis b hn hb hm hd
    simp [resolveTarget, hn, hb, branchTarget, hm, hd]
  · intro f st ctx dis b hn hb hm hd
    simp [resolveTarget, hn, hb, branchTarget, hm, hd]
  · intro f st ctx dis hn hb
    simp [resolveTarget, hn, hb]
  · intro s rest dis
    constructor
    · intro h; simp [firstEnabled, h]
    · intro h; simp [firstEnabled, h]
  · intro w fid sid f st nid hc hf hs hg ht
    simp only [nextStep, hc, hf, hs, hg, ht]

/-- Witness for C5: on the branch-test flow with `install.type = minimal`,
`Next()` lands on `minimal_install` and publishes the step-change event;
with an unmatched value the default `full_install` is taken; an explicit
next override wins; and declaration order skips a disabled step. -/
theorem next_resolution_semantics_witness :
    alookup branchWf.ctx "install.type" = some "minimal"
    ∧ nextStep branchWf = Except.ok ("minimal_install",
        { branchWf with
          cur := some ("test", "minimal_install"),
          visited := ["start", "minimal_install"],
          completedSteps := ["start"],
          events := [WfEvent.stepChange "start" "minimal_install"] })
    ∧ resolveTarget branchFlow { id := "start", branch := branchFlow.steps.head?.bind Step.branch }
        [("install.type", "surprise")] [] = Except.ok "full_install"
    ∧ resolveTarget branchFlow { id := "x", next := "finish" } [] [] = Except.ok "finish"
    ∧ resolveTarget jumpFlow { id := "welcome" } [] ["license"] = Except.ok "destination" := by
  refine ⟨rfl, ?_, ?_, ?_, ?_⟩
  · have h := next_resolution_semantics.2.2.2.2.2.2 branchWf "test" "start"
      branchFlow { id := "start", branch := branchFlow.steps.head?.bind Step.branch }
      "minimal_install" rfl rfl rfl rfl
      (next_resolution_semantics.2.1 branchFlow
        { id := "start", branch := branchFlow.steps.head?.bind Step.branch }
        branchWf.ctx branchWf.disabled
        { condition := "install.type",
          branches := [("full", "full_install"), ("minimal", "minimal_install")],
          default := "full_install" }
        "minimal" "minimal_install" rfl rfl rfl rfl)
    exact h.trans (by rfl)
  · exact next_resolution_semantics.2.2.1 branchFlow _ _ []
      { condition := "install.type",
        branches := [("full", "full_install"), ("minimal", "minimal_install")],
        default := "full_install" }
      rfl rfl rfl (by simp)
  · exact next_resolution_semantics.1 branchFlow { id := "x", next := "finish" } [] []
      (by simp)
  · have h := next_resolution_semantics.2.2.2.2.1 jumpFlow { id := "welcome" } [] ["license"]
      rfl rfl
    exact h.trans (by rfl)

/-- C6: with a flow selected, `JumpTo(stepID)` to an existing step succeeds
exactly when the step is not disabled and is either already visited or
carries the `AllowJump` flag; a successful jump checks no guard (the
condition is independent of every guard), moves the current position and
publishes a step-change event. -/
theorem jumpTo_semantics (w : Workflow) (fid cur sid : String) (f : Flow) (st : Step)
    (hc : w.cur = some (fid, cur)) (hf : findFlow w fid = some f)
    (hs : findStep f sid = some st) :
    ((∃ w', jumpTo w sid = Except.ok w')
      ↔ (sid ∉ w.disabled ∧ (sid ∈ w.visited ∨ st.allowJump = true)))
    ∧ (sid ∉ w.disabled → (sid ∈ w.visited ∨ st.allowJump = true) →
      jumpTo w sid = Except.ok
        { w with
          cur := some (fid, sid),
          visited := w.visited ++ [sid],
          events := w.events ++ [WfEvent.stepChange cur sid] }) := by
  constructor
  · constructor
    · rintro ⟨w', hw⟩
      simp only [jumpTo, hc, hf, hs] at hw
      by_cases hd : sid ∈ w.disabled
      · simp [hd] at hw
      · refine ⟨hd, ?_⟩
        by_cases hv : sid ∈ w.visited ∨ st.allowJump = true
        · exact hv
        · simp [hd, hv] at hw
    · rintro ⟨hd, hv⟩
      refine ⟨{ w with
                cur := some (fid, sid),
                visited := w.visited ++ [sid],
                events := w.events ++ [WfEvent.stepChange cur sid] }, ?_⟩
      simp only [jumpTo, hc, hf, hs]
      simp [hd, hv]
  · intro hd hv
    simp only [jumpTo, hc, hf, hs]
    simp [hd, hv]

/-- Witness for C6: in the jump-test workflow, jumping to the unvisited
`finish` (no AllowJump) fails, jumping to the unvisited `install`
(AllowJump) succeeds with a step-change event, and jumping to a disabled
step fails. -/
theorem jumpTo_semantics_witness :
    jumpWf.cur = some ("install", "welcome")
    ∧ (¬∃ w', jumpTo jumpWf "finish" = Except.ok w')
    ∧ jumpTo jumpWf "install" = Except.ok
        { jumpWf with
          cur := some ("install", "install"),
          visited := ["welcome", "install"],
          events := [WfEvent.stepChange "welcome" "install"] }
    ∧ (¬∃ w', jumpTo { jumpWf with disabled := ["destination"] } "destination"
        = Except.ok w') := by
  refine ⟨rfl, ?_, ?_, ?_⟩
  · intro hex
    have h := (jumpTo_semantics jumpWf "install" "welcome" "finish" jumpFlow
      { id := "finish" } rfl rfl rfl).1.1 hex
    rcases h.2 with hv | ha
    · simp [jumpWf] at hv
    · cases ha
  · have h := (jumpTo_semantics jumpWf "install" "welcome" "install" jumpFlow
      { id := "install", allowJump := true } rfl rfl rfl).2
      (by simp [jumpWf]) (Or.inr rfl)
    exact h.trans (by rfl)
  · intro hex
    have h := (jumpTo_semantics { jumpWf with disabled := ["destination"] }
      "install" "welcome" "destination" jumpFlow { id := "destination" } rfl rfl rfl).1.1 hex
    exact h.1 (by simp)

/-- C7: `AddFlow` rejects with an error every flow with zero steps, every
flow whose entry names none of its steps, and every flow whose ID is
already registered; and a flow that was never registered is not
selectable. -/
theorem addFlow_rejects_invalid :
    (∀ (w : Workflow) (f : Flow),
      (f.steps = [] ∨ (∀ s ∈ f.steps, s.id ≠ f.entry) ∨ (∃ g ∈ w.flows, g.id = f.id)) →
      ∃ e, addFlow w f = Except.error e)
    ∧ (∀ (w : Workflow) (fid : String), findFlow w fid = none →
      ∃ e, selectFlow w fid = Except.error e) := by
  constructor
  · intro w f h
    by_cases hid : f.id = ""
    · exact ⟨"flow id is empty", by simp [addFlow, hid]⟩
    · by_cases hdup : (findFlow w f.id).isSome
      · exact ⟨"duplicate flow id", by simp [addFlow, hid, hdup]⟩
      · rcases h with hsteps | hentry | hdup'
        · exact ⟨"flow has no steps", by simp [addFlow, hid, hdup, hsteps]⟩
        · by_cases hsteps : f.steps = []
          · exact ⟨"flow has no steps", by simp [addFlow, hid, hdup, hsteps]⟩
          · refine ⟨"entry step not found", ?_⟩
            have hnone : findStep f f.entry = none := by
              rw [findStep, List.find?_eq_none]
              intro s hs
              simp only [beq_iff_eq]
              exact hentry s hs
            simp [addFlow, hid, hdup, hsteps, hnone]
        · exfalso
          apply hdup
          rw [findFlow, List.find?_isSome]
          obtain ⟨g, hg, he⟩ := hdup'
          exact ⟨g, hg, by simp [he]⟩
  · intro w fid h
    exact ⟨"flow not found", by simp [selectFlow, h]⟩

/-- Witness for C7: the empty flow, a flow whose entry is not among its
steps, and a duplicate registration are all rejected, and an unregistered
flow ID is not selectable. -/
theorem addFlow_rejects_invalid_witness :
    (∃ e, addFlow {} { id := "empty" } = Except.error e)
    ∧ (∃ e, addFlow {} { id := "f", entry := "missing", steps := [{ id := "s1" }] }
        = Except.error e)
    ∧ (∃ e, addFlow { flows := [jumpFlow] } jumpFlow = Except.error e)
    ∧ (∃ e, selectFlow {} "install" = Except.error e) := by
  refine ⟨?_, ?_, ?_, ?_⟩
  · exact addFlow_rejects_invalid.1 {} { id := "empty" } (Or.inl rfl)
  · refine addFlow_rejects_invalid.1 {} _ (Or.inr (Or.inl ?_))
    intro s hs
    rcases List.mem_cons.1 hs with rfl | hs
    · simp
    · cases hs
  · exact addFlow_rejects_invalid.1 { flows := [jumpFlow] } jumpFlow
      (Or.inr (Or.inr ⟨jumpFlow, by simp, rfl⟩))
  · exact addFlow_rejects_invalid.2 {} "install" rfl

/-! Lemmas about template rendering. -/

theorem spanToClose_eq : ∀ (cs p rem : List Char), spanToClose cs = some (p, rem) →
    cs = p ++ '\x7d' :: rem ∧ '\x7d' ∉ p := by
  intro cs
  induction cs with
  | nil => intro p rem h; simp [spanToClose] at h
  | cons c cs ih =>
    intro p rem h
    simp only [spanToClose] at h
    by_cases hc : c = '\x7d'
    · rw [if_pos hc] at h
      simp only [Option.some.injEq, Prod.mk.injEq] at h
      obtain ⟨hp, hr⟩ := h
      subst hp; subst hr; subst hc
      exact ⟨rfl, by simp⟩
    · rw [if_neg hc] at h
      cases hsp : spanToClose cs with
      | none => rw [hsp] at h; exact absurd h (by simp)
      | some pr =>
        obtain ⟨p', rem'⟩ := pr
        rw [hsp] at h
        simp only [Option.some.injEq, Prod.mk.injEq] at h
        obtain ⟨hp, hr⟩ := h
        obtain ⟨hcs, hnot⟩ := ih p' rem' hsp
        subst hp; subst hr
        constructor
        · rw [hcs]; rfl
        · intro hm
          rcases List.mem_cons.1 hm with he | hm
          · exact hc he.symm
          · exact hnot hm

theorem spanToClose_cons (c : Char) (cs : List Char) (hc : ¬c = '\x7d') :
    spanToClose (c :: cs) =
      (match spanToClose cs with
       | some (p, rem) => some (c :: p, rem)
       | none => none) := by
  simp only [spanToClose, if_neg hc]

theorem spanToClose_append : ∀ (l r : List Char), '\x7d' ∉ l →
    spanToClose (l ++ '\x7d' :: r) = some (l, r) := by
  intro l
  induction l with
  | nil => intro r _; simp [spanToClose]
  | cons c l ih =>
    intro r hnot
    have hc : ¬c = '\x7d' := fun he => hnot (by simp [he])
    have hl : '\x7d' ∉ l := fun hm => hnot (by simp [hm])
    rw [List.cons_append, spanToClose_cons c (l ++ '\x7d' :: r) hc]
    simp only [ih r hl]

theorem renderList_nil (res : String → Option String) (fuel : Nat) :
    renderList res fuel [] = [] := by
  cases fuel <;> rfl

theorem renderList_cons_other (res : String → Option String) (fuel : Nat) (c : Char)
    (cs : List Char) (hc : ¬c = '$') :
    renderList res (fuel + 1) (c :: cs) = c :: renderList res fuel cs := by
  simp only [renderList, if_neg hc]

theorem renderList_dollar_nil (res : String → Option String) (fuel : Nat) :
    renderList res (fuel + 1) ['$'] = ['$'] := rfl

theorem renderList_dollar_brace (res : String → Option String) (fuel : Nat)
    (cs' : List Char) :
    renderList res (fuel + 1) ('$' :: '\x7b' :: cs') =
      (match spanToClose cs' with
       | some (p, rem) =>
         (match res (String.mk p) with
          | some v => v.data ++ renderList res fuel rem
          | none => '$' :: '\x7b' :: (p ++ '\x7d' :: renderList res fuel rem))
       | none => '$' :: '\x7b' :: renderList res fuel cs') := rfl

theorem renderList_dollar_other (res : String → Option String) (fuel : Nat) (d : Char)
    (cs' : List Char) (hd : ¬d = '\x7b') :
    renderList res (fuel + 1) ('$' :: d :: cs') = '$' :: renderList res fuel (d :: cs') := by
  simp [renderList, hd]

theorem renderList_id (res : String → Option String) (hres : ∀ q, res q = none) :
    ∀ (fuel : Nat) (cs : List Char), cs.length ≤ fuel → renderList res fuel cs = cs := by
  intro fuel
  induction fuel with
  | zero => intro cs _; rfl
  | succ fuel ih =>
    intro cs hlen
    cases cs with
    | nil => rfl
    | cons c cs =>
      by_cases hc : c = '$'
      · subst hc
        cases cs with
        | nil => rfl
        | cons d cs' =>
          have hlen' : cs'.length + 2 ≤ fuel + 1 := by
            simpa [List.length_cons] using hlen
          by_cases hd : d = '\x7b'
          · subst hd
            rw [renderList_dollar_brace]
            cases hsp : spanToClose cs' with
            | none =>
              simp only [hsp]
              rw [ih cs' (by omega)]
            | some pr =>
              obtain ⟨p, rem⟩ := pr
              obtain ⟨hcs, _⟩ := spanToClose_eq cs' p rem hsp
              have hrem : rem.length ≤ fuel := by
                have : cs'.length = p.length + 1 + rem.length := by
                  rw [hcs]; simp [List.length_append]; omega
                omega
              simp only [hsp, hres (String.mk p)]
              rw [ih rem hrem, hcs]
          · rw [renderList_dollar_other res fuel d cs' hd,
              ih (d :: cs') (by simp only [List.length_cons]; omega)]
      · rw [renderList_cons_other res fuel c cs hc,
          ih cs (by simp only [List.length_cons] at hlen; omega)]

theorem renderList_single (res : String → Option String) (p : String) (fuel : Nat)
    (hres : res p = none) (hb : '\x7d' ∉ p.data) :
    renderList res (fuel + 1) ('$' :: '\x7b' :: (p.data ++ ['\x7d']))
      = '$' :: '\x7b' :: (p.data ++ ['\x7d']) := by
  have hsp : spanToClose (p.data ++ '\x7d' :: []) = some (p.data, []) :=
    spanToClose_append p.data [] hb
  rw [renderList_dollar_brace]
  simp only [hsp, show String.mk p.data = p from rfl, hres, renderList_nil]

/-- C8: `Render` substitutes nothing for an unresolvable variable
reference — with a resolver that knows no path, every template is returned
unchanged; and for any resolver, a single reference to an unresolved path
is kept verbatim (never an error, never an empty substitution). -/
theorem render_missing_path_verbatim :
    (∀ (res : String → Option String) (s : String), (∀ q, res q = none) → render res s = s)
    ∧ (∀ (res : String → Option String) (p : String), res p = none → '\x7d' ∉ p.data →
      render res ("$\x7b" ++ p ++ "\x7d") = "$\x7b" ++ p ++ "\x7d") := by
  constructor
  · intro res s hres
    rw [render, renderList_id res hres (s.data.length + 1) s.data (by omega)]
  · intro res p hres hb
    have hdata : ("$\x7b" ++ p ++ "\x7d").data = '$' :: '\x7b' :: (p.data ++ ['\x7d']) := by
      rw [String.data_append, String.data_append]
      rfl
    rw [render, hdata, renderList_single res p _ hres hb, ← hdata]

/-- Witness for C8: on an empty install context,
`Render` of a single unknown-path reference returns its input unchanged. -/
theorem render_missing_path_verbatim_witness :
    (∀ q, ctxResolve { userInput := [], meta := [], env := [] } q = none)
    ∧ ctxRender { userInput := [], meta := [], env := [] } "$\x7bunknown.path\x7d"
      = "$\x7bunknown.path\x7d" := by
  have hres : ∀ q, ctxResolve { userInput := [], meta := [], env := [] } q = none := by
    intro q
    simp [ctxResolve, alookup]
  exact ⟨hres, render_missing_path_verbatim.1
    (ctxResolve { userInput := [], meta := [], env := [] }) "$\x7bunknown.path\x7d" hres⟩

/-! Lemmas about the file-system association list and the download task. -/

theorem alookup_aremove {α : Type} (key : String) :
    ∀ l : List (String × α), alookup (aremove l key) key = none := by
  intro l
  induction l with
  | nil => rfl
  | cons p rest ih =>
    obtain ⟨k, v⟩ := p
    by_cases hk : k = key
    · simpa [aremove, List.filter_cons, hk] using ih
    · simpa [aremove, List.filter_cons, hk, alookup] using ih

/-- C9: when a checksum is configured and the digest of the downloaded
bytes does not match it, `DownloadTask.Execute` fails with an error and
the destination file does not exist afterwards. -/
theorem download_checksum_failure_removes_file
    (hashHex : List Nat → String) (net : List (String × HttpResp))
    (t : DownloadTask) (fs : List (String × List Nat)) (resp : HttpResp)
    (hnet : alookup net t.url = some resp) (hstatus : resp.status = 200)
    (hsha : t.sha256 ≠ "") (hmismatch : hashHex resp.body ≠ t.sha256) :
    (∃ e, (executeD hashHex net t fs).err = some e)
    ∧ alookup (executeD hashHex net t fs).fs t.destination = none
    ∧ (executeD hashHex net t fs).task = t := by
  have hres : executeD hashHex net t fs =
      ⟨some ("checksum mismatch: expected " ++ t.sha256 ++ ", got " ++ hashHex resp.body),
        t, aremove (ainsert fs t.destination resp.body) t.destination⟩ := by
    simp [executeD, hnet, hstatus, hsha, hmismatch]
  rw [hres]
  exact ⟨⟨_, rfl⟩, alookup_aremove t.destination _, rfl⟩

theorem runGo_rbOrder_canRb (pol : FailurePolicy) (maxR : Nat) :
    ∀ (ts : List MTask) (idx : Nat) (compl : List (Nat × MTask)) (i : Nat),
      i ∈ (runGo pol maxR idx compl ts).rbOrder →
      (∃ u, (i, u) ∈ compl ∧ u.canRb = true) ∨ (∃ u, (i, u) ∈ enumF idx ts ∧ u.canRb = true) := by
  intro ts
  induction ts with
  | nil =>
    intro idx compl i h
    rw [runGo_nil] at h
    cases h
  | cons t rest ih =>
    intro idx compl i h
    rw [runGo_cons] at h
    by_cases ho : (taskOutcome pol maxR t).2 = true
    · rw [if_pos ho] at h
      have h' : i ∈ (runGo pol maxR (idx + 1) ((idx, t) :: compl) rest).rbOrder := h
      rcases ih (idx + 1) ((idx, t) :: compl) i h' with ⟨u, hu, hc⟩ | ⟨u, hu, hc⟩
      · rcases List.mem_cons.1 hu with he | hu2
        · right
          refine ⟨t, ?_, ?_⟩
          · have hi : i = idx := congrArg Prod.fst he
            simp [enumF, hi]
          · have : u = t := congrArg Prod.snd he
            rw [← this]; exact hc
        · exact Or.inl ⟨u, hu2, hc⟩
      · right
        exact ⟨u, by simp [enumF]; right; exact hu, hc⟩
    · rw [if_neg ho] at h
      cases pol with
      | skip =>
        have h' : i ∈ (runGo FailurePolicy.skip maxR (idx + 1) compl rest).rbOrder := h
        rcases ih (idx + 1) compl i h' with ⟨u, hu, hc⟩ | ⟨u, hu, hc⟩
        · exact Or.inl ⟨u, hu, hc⟩
        · right
          exact ⟨u, by simp [enumF]; right; exact hu, hc⟩
      | rollback =>
        have h' : i ∈ (compl.filter fun p => p.2.canRb).map Prod.fst := h
        obtain ⟨q, hq, he⟩ := List.mem_map.1 h'
        have hq2 := List.mem_filter.1 hq
        left
        refine ⟨q.2, ?_, hq2.2⟩
        have : (i, q.2) = q := by
          rw [← he]
        rw [this]
        exact hq2.1
      | abort => cases h
      | retry => cases h

/-- C10: a `DownloadTask` reports `CanRollback()` false until an `Execute`
succeeded and true afterwards (a failed `Execute` leaves the task
unchanged); the runner only ever selects rollback-capable tasks for
rollback; and `Rollback` removes the downloaded destination file,
tolerating a file that is already absent. -/
theorem download_rollback_semantics :
    (∀ url dest sha : String,
      canRollbackD { url := url, destination := dest, sha256 := sha } = false)
    ∧ (∀ (hashHex : List Nat → String) (net : List (String × HttpResp))
        (t : DownloadTask) (fs : List (String × List Nat)),
      (executeD hashHex net t fs).err = none → validateD t = none →
      canRollbackD (executeD hashHex net t fs).task = true)
    ∧ (∀ (hashHex : List Nat → String) (net : List (String × HttpResp))
        (t : DownloadTask) (fs : List (String × List Nat)) (e : String),
      (executeD hashHex net t fs).err = some e →
      (executeD hashHex net t fs).task = t)
    ∧ (∀ (pol : FailurePolicy) (maxR : Nat) (ts : List MTask) (i : Nat),
      i ∈ (runTasks pol maxR ts).rbOrder → ∃ u, (i, u) ∈ enumF 0 ts ∧ u.canRb = true)
    ∧ (∀ (t : DownloadTask) (fs : List (String × List Nat)), t.downloadedFile ≠ "" →
      (rollbackD t fs).1 = none ∧ alookup (rollbackD t fs).2 t.downloadedFile = none)
    ∧ (∀ (hashHex : List Nat → String) (net : List (String × HttpResp))
        (t : DownloadTask) (fs : List (String × List Nat)),
      (executeD hashHex net t fs).err = none → validateD t = none →
      alookup (rollbackD (executeD hashHex net t fs).task (executeD hashHex net t fs).fs).2
          t.destination = none) := by
  have hvalid : ∀ t : DownloadTask, validateD t = none → t.destination ≠ "" := by
    intro t hv hd
    rw [validateD, hd] at hv
    by_cases hu : t.url = "" <;> simp [hu] at hv
  have hsucc : ∀ (hashHex : List Nat → String) (net : List (String × HttpResp))
      (t : DownloadTask) (fs : List (String × List Nat)),
      (executeD hashHex net t fs).err = none →
      (executeD hashHex net t fs).task = { t with downloadedFile := t.destination }
      ∧ (executeD hashHex net t fs).fs = ainsert fs t.destination
          ((alookup net t.url).getD ⟨0, []⟩).body := by
    intro hashHex net t fs herr
    cases hnet : alookup net t.url with
    | none => simp [executeD, hnet] at herr
    | some resp =>
      by_cases hst : resp.status ≠ 200
      · simp [executeD, hnet, hst] at herr
      · by_cases hck : t.sha256 ≠ "" ∧ hashHex resp.body ≠ t.sha256
        · simp [executeD, hnet, hst, hck] at herr
        · constructor <;> simp [executeD, hnet, hst, hck]
  have hfailkeep : ∀ (hashHex : List Nat → String) (net : List (String × HttpResp))
      (t : DownloadTask) (fs : List (String × List Nat)) (e : String),
      (executeD hashHex net t fs).err = some e → (executeD hashHex net t fs).task = t := by
    intro hashHex net t fs e herr
    cases hnet : alookup net t.url with
    | none => simp [executeD, hnet]
    | some resp =>
      by_cases hst : resp.status ≠ 200
      · simp [executeD, hnet, hst]
      · by_cases hck : t.sha256 ≠ "" ∧ hashHex resp.body ≠ t.sha256
        · simp [executeD, hnet, hst, hck]
        · simp [executeD, hnet, hst, hck] at herr
  refine ⟨?_, ?_, hfailkeep, ?_, ?_, ?_⟩
  · intro url dest sha
    rfl
  · intro hashHex net t fs herr hv
    rw [(hsucc hashHex net t fs herr).1]
    simp [canRollbackD, hvalid t hv]
  · intro pol maxR ts i h
    rcases runGo_rbOrder_canRb pol maxR ts 0 [] i h with ⟨u, hu, _⟩ | hok
    · cases hu
    · exact hok
  · intro t fs hd
    refine ⟨by simp [rollbackD, hd], ?_⟩
    simp only [rollbackD, if_pos hd]
    exact alookup_aremove t.downloadedFile fs
  · intro hashHex net t fs herr hv
    obtain ⟨htask, _⟩ := hsucc hashHex net t fs herr
    rw [htask]
    simp only [rollbackD]
    rw [if_pos (by simpa using hvalid t hv)]
    exact alookup_aremove t.destination _

/-- Witness for C9: a download whose digest differs from the configured
checksum errors and leaves no file at the destination, even when a file
was there before. -/
theorem download_checksum_failure_removes_file_witness :
    ("OTHER" : String) ≠ "" ∧ ("HASH" : String) ≠ "OTHER"
    ∧ (∃ e, (executeD (fun _ => "HASH") [("http://x/f", ⟨200, [1, 2]⟩)]
        { url := "http://x/f", destination := "/tmp/f", sha256 := "OTHER" }
        [("/tmp/f", [9])]).err = some e)
    ∧ alookup (executeD (fun _ => "HASH") [("http://x/f", ⟨200, [1, 2]⟩)]
        { url := "http://x/f", destination := "/tmp/f", sha256 := "OTHER" }
        [("/tmp/f", [9])]).fs "/tmp/f" = none := by
  have h := download_checksum_failure_removes_file (fun _ => "HASH")
    [("http://x/f", ⟨200, [1, 2]⟩)]
    { url := "http://x/f", destination := "/tmp/f", sha256 := "OTHER" }
    [("/tmp/f", [9])] ⟨200, [1, 2]⟩ rfl rfl (by decide) (by decide)
  exact ⟨by decide, by decide, h.1, h.2.1⟩

/-- Witness for C10: a fresh download task cannot roll back; after a
successful download it can, and its rollback removes the destination file;
a failed download leaves the task unchanged; the runner rolled back only
the rollback-capable completed task. -/
theorem download_rollback_semantics_witness :
    canRollbackD { url := "http://x/f", destination := "/tmp/f" } = false
    ∧ (executeD (fun _ => "HASH") [("http://x/f", ⟨200, [1, 2]⟩)]
        { url := "http://x/f", destination := "/tmp/f", sha256 := "HASH" } []).err = none
    ∧ canRollbackD (executeD (fun _ => "HASH") [("http://x/f", ⟨200, [1, 2]⟩)]
        { url := "http://x/f", destination := "/tmp/f", sha256 := "HASH" } []).task = true
    ∧ (executeD (fun _ => "HASH") [] { url := "http://x/f", destination := "/tmp/f" }
        []).task = { url := "http://x/f", destination := "/tmp/f" }
    ∧ 0 ∈ (runTasks FailurePolicy.rollback 0 [wOkRb "a", wFail "b"]).rbOrder
    ∧ (∃ u, (0, u) ∈ enumF 0 [wOkRb "a", wFail "b"] ∧ u.canRb = true)
    ∧ alookup (rollbackD
        { url := "u", destination := "d", downloadedFile := "/tmp/f" }
        [("/tmp/f", [1])]).2 "/tmp/f" = none
    ∧ alookup (rollbackD
        { url := "u", destination := "d", downloadedFile := "/tmp/f" } []).2
        "/tmp/f" = none := by
  have hmem : 0 ∈ (runTasks FailurePolicy.rollback 0 [wOkRb "a", wFail "b"]).rbOrder := by
    decide
  refine ⟨download_rollback_semantics.1 "http://x/f" "/tmp/f" "",
    rfl,
    download_rollback_semantics.2.1 (fun _ => "HASH") [("http://x/f", ⟨200, [1, 2]⟩)]
      { url := "http://x/f", destination := "/tmp/f", sha256 := "HASH" } [] rfl rfl,
    download_rollback_semantics.2.2.1 (fun _ => "HASH") []
      { url := "http://x/f", destination := "/tmp/f" } [] "failed to download" rfl,
    hmem,
    download_rollback_semantics.2.2.2.1 FailurePolicy.rollback 0 [wOkRb "a", wFail "b"] 0 hmem,
    (download_rollback_semantics.2.2.2.2.1
      { url := "u", destination := "d", downloadedFile := "/tmp/f" }
      [("/tmp/f", [1])] (by decide)).2,
    (download_rollback_semantics.2.2.2.2.1
      { url := "u", destination := "d", downloadedFile := "/tmp/f" } [] (by decide)).2⟩

end Installer
